import Mathlib

/-!
Shallow embedding of the OSMElink backend telemetry synchronization engine.

The embedding covers, translated from the JavaScript source:
* status derivation (`deriveVehicleStatus`, src/server.js),
* the paginated remote fetch loop (`fetchAllPages`, src/server.js),
* the token lifecycle of one sync cycle (`syncFleetFromTOR`, src/server.js),
* the interval scheduler with its `isSyncing` mutual-exclusion flag
  (src/server.js, `setInterval` handler),
* the file-backed push-ingestion merge with history dedup and cap
  (`POST /api/telemetry/bulk`, src/unnamed/part_001),
* the MySQL-backed push-ingestion endpoint
  (`POST /api/telemetry/bulk`, src/server.js).

JavaScript values are modelled explicitly: a field that may be `undefined` or
`null` is an `Option`; the result of `Number(...)` is an `Option ℚ` with `none`
standing for `NaN`; JS truthiness of strings (empty string is falsy) is spelled
out in `jsOrS` / `truthyS`. Unbounded `while (true)` loops take a fuel
parameter and return `none` when the fuel is exhausted, so every theorem about
a completed loop is stated at (or conditioned on) sufficient fuel.
-/

namespace Osme

/-- JS `a || b` on string-valued fields: `undefined`/`null` (modelled `none`)
and the empty string are falsy. -/
def jsOrS : Option String → Option String → Option String
  | some s, b => if s = "" then b else some s
  | none, b => b

/-- JS truthiness of a string-valued field. -/
def truthyS : Option String → Bool
  | some s => s != ""
  | none => false

/-- JS `a || d` on a string field with a plain-string fallback. -/
def jsOrDefault : Option String → String → String
  | some s, d => if s = "" then d else s
  | none, d => d

/-- JS `x || 0` on a numeric field (`undefined`/`null`/`NaN` modelled `none`;
a stored `0` is falsy and also yields `0`). -/
def jsNumOrZero : Option ℚ → ℚ
  | some q => q
  | none => 0

/-- JS `Number(x) > 0`; any comparison against `NaN` (here `none`) is false. -/
def numPos : Option ℚ → Bool
  | some q => decide (0 < q)
  | none => false

/-! ### Status derivation (src/server.js, `deriveVehicleStatus`) -/

/-- One TOR telemetry sample as read by `deriveVehicleStatus`.
`DeviceDate` is the device timestamp parsed by `new Date(...)` in epoch
milliseconds; `none` means the field is missing or unparseable (the parse
yielded `NaN`). The numeric fields hold the result of JS `Number(...)`, with
`none` for `NaN`. -/
structure Telemetry where
  DeviceDate : Option Int
  MachineStatus : Option String
  isCharging : Option Bool
  BatteryChargingIndication1 : Option ℚ
  Speed : Option ℚ
  KeyOnSignal : Option String
deriving DecidableEq

/-- Translation of `deriveVehicleStatus` (src/server.js lines 116-137).
`now` is `Date.now()` in epoch milliseconds;
`diffMin = (Date.now() - deviceTime.getTime()) / 60000`. -/
def deriveVehicleStatus (now : Int) (v : Telemetry) : String :=
  match v.DeviceDate with
  | none => "Offline"
  | some t =>
    let diffMin : ℚ := ((now - t : Int) : ℚ) / 60000
    if diffMin > 1440 then "Non-Communicating"
    else if diffMin > 15 then "Offline"
    else if v.MachineStatus == some "On" then "Online"
    else if v.isCharging == some true || numPos v.BatteryChargingIndication1 then "Charging"
    else if numPos v.Speed then "Running"
    else if v.KeyOnSignal == some "1" then "Idle"
    else "Off"

/-- Status derivation exactly as worded by the specification (spec.md §4.3):
the eight priority rules, first match wins. Written from the spec's words, to
be compared with `deriveVehicleStatus`, which is written from the source. -/
def statusDerivationSpec (now : Int) (v : Telemetry) : String :=
  match v.DeviceDate with
  | none => "Offline"                                   -- 1. timestamp missing or unparseable
  | some t =>
    let elapsedMinutes : ℚ := ((now - t : Int) : ℚ) / 60000
    if elapsedMinutes > 1440 then "Non-Communicating"   -- 2. exceeds 1440 minutes
    else if elapsedMinutes > 15 then "Offline"          -- 3. exceeds 15 minutes
    else if v.MachineStatus == some "On" then "Online"  -- 4. raw machine status is "On"
    else if v.isCharging == some true || numPos v.BatteryChargingIndication1
      then "Charging"                                   -- 5. charging flag or positive charging current
    else if numPos v.Speed then "Running"               -- 6. speed greater than zero
    else if v.KeyOnSignal == some "1" then "Idle"       -- 7. key-on signal equals "1"
    else "Off"                                          -- 8. default

/-! ### Paginated fetch (src/server.js, `fetchAllPages`) -/

/-- Request-level failure of one page request (an `axios` throw): a timeout or
an HTTP error response; `authClass` marks authentication-class failures. -/
inductive ReqError where
  | timeout
  | http (authClass : Bool)

/-- Loop body of `fetchAllPages` (src/server.js lines 62-95), one recursive
step per `while (true)` iteration. `server` abstracts the remote endpoint: for
a page number it yields either the record list already extracted from the
tolerated response shapes (bare array / `data` / `result`, else `[]`) or a
request-level error, which the source catches and turns into a `break`.
Returns the accumulated records plus the number of requests issued; `none`
when `fuel` iterations did not reach a loop exit. The page size is the
source's constant 1000. -/
def fetchLoop (server : ℕ → Except ReqError (List α)) :
    ℕ → ℕ → List α → ℕ → Option (List α × ℕ)
  | 0, _, _, _ => none
  | fuel + 1, pageNo, all, reqs =>
    match server pageNo with
    | .error _ => some (all, reqs + 1)
    | .ok list =>
      if list.length = 0 then some (all, reqs + 1)
      else if list.length < 1000 then some (all ++ list, reqs + 1)
      else fetchLoop server fuel (pageNo + 1) (all ++ list) (reqs + 1)

/-- Translation of `fetchAllPages` (src/server.js lines 62-95): start at page 1 with nothing
accumulated. -/
def fetchAllPages (server : ℕ → Except ReqError (List α)) (fuel : ℕ) :
    Option (List α × ℕ) :=
  fetchLoop server fuel 1 [] 0

/-- Page `pageNo` (1-based) of an endpoint that serves `records` in pages of
at most 1000 records. -/
def pageOf (records : List α) (pageNo : ℕ) : List α :=
  (records.drop ((pageNo - 1) * 1000)).take 1000

/-- An endpoint that serves `records` in pages of at most 1000, never
failing. -/
def pagedServer (records : List α) : ℕ → Except ReqError (List α) :=
  fun pageNo => .ok (pageOf records pageNo)

/-- An endpoint that serves `records` in pages of at most 1000 but whose page
`k` (and every later page) fails with the request-level error `e`. -/
def errorAtServer (records : List α) (k : ℕ) (e : ReqError) :
    ℕ → Except ReqError (List α) :=
  fun pageNo => if pageNo < k then .ok (pageOf records pageNo) else .error e

/-! ### Token lifecycle of one sync cycle (src/server.js, `syncFleetFromTOR`) -/

/-- Translation of `getTorToken` (src/server.js lines 98-114) acting on the
global `authToken`: `login` is the token found in the login response body
(`none` on a network failure, a non-2xx response, or a body carrying no token
under any of the tolerated keys); the global token is set to exactly that
value, so a failed acquisition leaves it cleared. -/
def getTorToken (login : Option String) : Option String := login

/-- External environment of one sync cycle: the login outcome, the two
paginated endpoints (metadata and telemetry), and whether the database writes
succeed. -/
structure CycleEnv (α : Type) where
  login : Option String
  metaServer : ℕ → Except ReqError (List α)
  telServer : ℕ → Except ReqError (List α)
  dbOk : Bool

/-- Observable outcome of one sync cycle: the global `authToken` after the
cycle, the two fetched lists, whether the remote fetch step ran at all, and
whether the cycle reached its normal end (no database exception). -/
structure CycleResult (α : Type) where
  authToken : Option String
  metaList : List α
  telemetryList : List α
  fetched : Bool
  completed : Bool
deriving DecidableEq

/-- Translation of `syncFleetFromTOR` (src/server.js lines 141-259) restricted
to the state it can change. `if (!authToken && !(await getTorToken()))` either
keeps the existing token or acquires one; with no token the cycle returns
early without fetching. Both `fetchAllPages` calls catch their own request
errors internally and never touch the token; a database failure jumps to the
outer `catch`, which only logs. `none` models a cycle whose fetch loop did not
finish within `fuel` iterations. -/
def syncFleetFromTOR (authToken : Option String) (env : CycleEnv α) (fuel : ℕ) :
    Option (CycleResult α) :=
  let tok :=
    match authToken with
    | some t => some t
    | none => getTorToken env.login
  match tok with
  | none => some ⟨none, [], [], false, false⟩
  | some t =>
    match fetchAllPages env.metaServer fuel, fetchAllPages env.telServer fuel with
    | some (metaList, _), some (telemetryList, _) =>
      if env.dbOk then some ⟨some t, metaList, telemetryList, true, true⟩
      else some ⟨some t, metaList, telemetryList, true, false⟩
    | _, _ => none

/-! ### Interval scheduler (src/server.js lines 262-276) -/

/-- Scheduler state: the `isSyncing` flag, plus the implicit program-counter
fact of whether an awaited `syncFleetFromTOR()` call is currently in flight. -/
structure SchedState where
  isSyncing : Bool
  inFlight : Bool
deriving DecidableEq

/-- Events driving the scheduler: the interval timer fires, or the awaited
sync cycle finishes (normally, or by throwing when `failed` is true). -/
inductive SchedEvent where
  | timerFire
  | cycleFinish (failed : Bool)

/-- One scheduler transition (src/server.js lines 264-276). On `timerFire`:
if `isSyncing` the handler returns at once (the cycle is skipped, nothing is
queued); otherwise it sets `isSyncing := true` inside the `try` and starts the
cycle. On `cycleFinish` the `finally` block clears `isSyncing`
unconditionally, whether the cycle returned or threw; a finish event can only
be produced by a cycle that is actually in flight, so without one the state is
untouched. The second component reports whether this event started a cycle
(entered the fetch step). -/
def schedStep (s : SchedState) : SchedEvent → SchedState × Bool
  | .timerFire =>
    if s.isSyncing then (s, false)
    else (⟨true, true⟩, true)
  | .cycleFinish _ =>
    if s.inFlight then (⟨false, false⟩, false)
    else (s, false)

/-- Run the scheduler over a sequence of events. -/
def schedRun (s : SchedState) : List SchedEvent → SchedState
  | [] => s
  | e :: es => schedRun (schedStep s e).1 es

/-- Initial scheduler state: `let isSyncing = false`, no cycle in flight. -/
def initSched : SchedState := ⟨false, false⟩

/-! ### File-backed push ingestion (src/unnamed/part_001, `POST /api/telemetry/bulk`) -/

/-- The provider-raw payload of a push record, restricted to the two fields
the merge logic reads (`ENTRYDATE`, `DeviceDate`); the remaining provider
fields are carried opaquely and never inspected by the endpoint. -/
structure RawTor where
  ENTRYDATE : Option String
  DeviceDate : Option String
deriving DecidableEq

/-- One retained history element: `{ timestamp, rawTor, metrics }` as pushed
by `history.unshift` in src/unnamed/part_001. -/
structure HistoryEntry where
  timestamp : Option String
  rawTor : Option RawTor
  metrics : Option String
deriving DecidableEq

/-- One record of the pushed batch (`node`): its identifier, raw payload, and
the merged current-state fields; `none` marks an absent property. -/
structure PushNode where
  id : Option String
  rawTor : Option RawTor
  metrics : Option String
  status : Option String
deriving DecidableEq

/-- One stored vehicle of `vehicleStore`: the shallow-merged current-state
fields plus the bounded `history` list and the `alerts` list. -/
structure Vehicle where
  id : Option String
  rawTor : Option RawTor
  metrics : Option String
  status : Option String
  history : List HistoryEntry
  alerts : List String
deriving DecidableEq

/-- The default for an unknown vehicle: `{ history: [], alerts: [] }`. -/
def emptyVehicle : Vehicle := ⟨none, none, none, none, [], []⟩

/-- The `vehicleStore` object as an association list keyed by vehicle identifier. -/
abbrev VStore := List (String × Vehicle)

/-- JS property lookup `vehicleStore[id]`. -/
def lookupStore (s : VStore) (k : String) : Option Vehicle :=
  (s.find? (fun p => p.1 == k)).map (fun p => p.2)

/-- JS property write `vehicleStore[id] = v`: replace the binding if the key
is present, otherwise add it. -/
def upsertStore (s : VStore) (k : String) (v : Vehicle) : VStore :=
  if s.any (fun p => p.1 == k) then
    s.map (fun p => if p.1 == k then (k, v) else p)
  else s ++ [(k, v)]

/-- The dedup key of a record or a stored entry:
`rawTor?.ENTRYDATE || rawTor?.DeviceDate`. -/
def entryKeyOf (r : Option RawTor) : Option String :=
  jsOrS (r.bind fun x => x.ENTRYDATE) (r.bind fun x => x.DeviceDate)

/-- Shallow-merge one field of `{...existing, ...node}`: a property present on
`node` overwrites, an absent one keeps the existing value. -/
def mergeField (old new : Option β) : Option β :=
  match new with
  | some v => some v
  | none => old

/-- The merged vehicle `{...existing, ...node, history}` written back to the
store. -/
def mergeVehicle (existing : Vehicle) (n : PushNode) (h : List HistoryEntry) :
    Vehicle :=
  ⟨mergeField existing.id n.id, mergeField existing.rawTor n.rawTor,
   mergeField existing.metrics n.metrics, mergeField existing.status n.status,
   h, existing.alerts⟩

/-- The new-history entry `{ timestamp: entryDate, rawTor, metrics }` built
from a push record. -/
def entryOfNode (n : PushNode) : HistoryEntry :=
  ⟨entryKeyOf n.rawTor, n.rawTor, n.metrics⟩

/-- The history-update block of src/unnamed/part_001 lines 135-151: compute
the dedup key `entryDate`; when it is truthy and not already present among the
existing entries' keys, `unshift` a new entry to the front and, if the list
now exceeds 5000 entries, `pop` the last (oldest) one; otherwise leave the
history untouched. -/
def newHistoryOf (history : List HistoryEntry) (n : PushNode) :
    List HistoryEntry :=
  let entryDate := entryKeyOf n.rawTor
  if truthyS entryDate
      && !(history.any fun h => entryKeyOf h.rawTor == entryDate) then
    let h1 := entryOfNode n :: history
    if h1.length > 5000 then h1.dropLast else h1
  else history

/-- Body of `batch.forEach(node => ...)` in src/unnamed/part_001 lines
129-158: skip a record with a falsy `id`; update the history via
`newHistoryOf`; finally shallow-merge the record over the existing vehicle and
write the result back under the record's identifier. -/
def applyNode (s : VStore) (n : PushNode) : VStore :=
  match n.id with
  | none => s
  | some i =>
    if i = "" then s
    else
      let existing := (lookupStore s i).getD emptyVehicle
      upsertStore s i (mergeVehicle existing n (newHistoryOf existing.history n))

/-- The whole `POST /api/telemetry/bulk` handler of src/unnamed/part_001 on an
array body: process the records in order. -/
def telemetryBulk (s : VStore) (batch : List PushNode) : VStore :=
  batch.foldl applyNode s

/-! ### MySQL-backed push ingestion (src/server.js lines 357-402) -/

/-- Optional nested `location {lat, lng}` of a pushed record. -/
structure GeoLocation where
  lat : Option ℚ
  lng : Option ℚ
deriving DecidableEq

/-- Optional nested `metrics {speed, battery, odometer}` of a pushed record. -/
structure PushMetrics where
  speed : Option ℚ
  battery : Option ℚ
  odometer : Option ℚ
deriving DecidableEq

/-- One element of the pushed batch for the MySQL-backed endpoint. -/
structure BulkRec where
  vehicleId : Option String
  displayDeviceId : Option String
  registrationNo : Option String
  status : Option String
  location : Option GeoLocation
  metrics : Option PushMetrics
deriving DecidableEq

/-- One row of the `vehicles` table; `lastUpdate` is the receipt time
(`new Date()`). -/
structure VehicleRow where
  vehicleId : String
  displayDeviceId : String
  registrationNo : String
  status : String
  lat : ℚ
  lng : ℚ
  speed : ℚ
  battery : ℚ
  odometer : ℚ
  lastUpdate : ℕ
deriving DecidableEq

/-- The row bound into the upsert statement for a record whose `vehicleId` is
the truthy string `i`, with the source's `||` fallbacks. -/
def rowOfRec (now : ℕ) (i : String) (v : BulkRec) : VehicleRow :=
  ⟨i,
   jsOrDefault v.displayDeviceId i,
   jsOrDefault v.registrationNo "---",
   jsOrDefault v.status "Off",
   jsNumOrZero (v.location.bind fun l => l.lat),
   jsNumOrZero (v.location.bind fun l => l.lng),
   jsNumOrZero (v.metrics.bind fun m => m.speed),
   jsNumOrZero (v.metrics.bind fun m => m.battery),
   jsNumOrZero (v.metrics.bind fun m => m.odometer),
   now⟩

/-- The `vehicles` table keyed by `vehicleId` (its primary key). -/
abbrev VTable := List (String × VehicleRow)

/-- The `INSERT ... ON DUPLICATE KEY UPDATE` statement: every non-key column is listed in
the update clause, so an existing row is fully replaced. -/
def upsertRow (tbl : VTable) (k : String) (r : VehicleRow) : VTable :=
  if tbl.any (fun p => p.1 == k) then
    tbl.map (fun p => if p.1 == k then (k, r) else p)
  else tbl ++ [(k, r)]

/-- Body of the ingest loop for one record: `if (!v.vehicleId) continue`, then
upsert. -/
def ingestRec (now : ℕ) (tbl : VTable) (v : BulkRec) : VTable :=
  match v.vehicleId with
  | none => tbl
  | some i => if i = "" then tbl else upsertRow tbl i (rowOfRec now i v)

/-- Request body of the bulk endpoint: either not an array, or an array of
records. -/
inductive BulkBody where
  | notArray
  | arr (l : List BulkRec)

/-- Response of the bulk endpoint: `400 {error}` or
`{success: true, vehicles: <count>}`. -/
inductive BulkResponse where
  | badRequest
  | ok (vehicles : ℕ)
deriving DecidableEq

/-- The `POST /api/telemetry/bulk` handler of src/server.js lines 357-402: a
non-array body is rejected with 400 before any database access; otherwise the
records are processed in order, skipping those without a truthy `vehicleId`,
and the response reports `SELECT COUNT(*) FROM vehicles` taken after the whole
loop. -/
def telemetryBulkIngest (now : ℕ) (tbl : VTable) (body : BulkBody) :
    VTable × BulkResponse :=
  match body with
  | .notArray => (tbl, .badRequest)
  | .arr l =>
    let final := l.foldl (ingestRec now) tbl
    (final, .ok final.length)

/-! ## Theorems -/

/-- C1: for every telemetry sample, status derivation returns exactly one of
the statuses Offline, Non-Communicating, Online, Charging, Running, Idle, Off,
and it is computed by the spec's strict priority cascade (first match wins):
Offline on a missing/unparseable device timestamp; Non-Communicating past 1440
elapsed minutes; Offline past 15; Online when the raw machine status is "On";
Charging when the charging flag is strictly true or the charging-current field
is a positive number; Running on positive speed; Idle when the key-on signal
is "1"; otherwise Off. -/
theorem deriveVehicleStatus_priority :
    ∀ (now : Int) (v : Telemetry),
      deriveVehicleStatus now v = statusDerivationSpec now v ∧
      deriveVehicleStatus now v ∈
        (["Offline", "Non-Communicating", "Online", "Charging", "Running",
          "Idle", "Off"] : List String) := by
  intro now v
  refine ⟨rfl, ?_⟩
  unfold deriveVehicleStatus
  cases v.DeviceDate with
  | none => simp
  | some t =>
    dsimp only
    split_ifs <;> simp

/-- The scheduler invariant: starting from a state where the `isSyncing` flag
agrees with the in-flight fact, every run keeps them in agreement. -/
theorem schedRun_inv :
    ∀ (events : List SchedEvent) (s : SchedState),
      s.isSyncing = s.inFlight →
      (schedRun s events).isSyncing = (schedRun s events).inFlight := by
  intro events
  induction events with
  | nil => intro s h; exact h
  | cons e es ih =>
    intro s h
    show (schedRun (schedStep s e).1 es).isSyncing
        = (schedRun (schedStep s e).1 es).inFlight
    apply ih
    cases e with
    | timerFire =>
      cases hs : s.isSyncing with
      | true => simp [schedStep, hs, ← h, hs]
      | false => simp [schedStep, hs]
    | cycleFinish failed =>
      cases hf : s.inFlight with
      | true => simp [schedStep, hf]
      | false => simp [schedStep, hf, h, hf]

/-- C3: in every reachable scheduler state, the `isSyncing` flag is set
exactly when a cycle is in flight (so the flag is never left set with no cycle
running); a timer fire while a cycle is in flight changes nothing and starts
no cycle (the fetch step is not entered and nothing is queued); and a cycle
finishing — normally or by exception — always leaves the flag cleared, because
the release runs in a `finally` block. -/
theorem syncGuard_skip_and_release :
    ∀ events : List SchedEvent,
      ((schedRun initSched events).isSyncing
        = (schedRun initSched events).inFlight) ∧
      ((schedRun initSched events).inFlight = true →
        schedStep (schedRun initSched events) SchedEvent.timerFire
          = ((schedRun initSched events), false)) ∧
      (∀ failed : Bool,
        (schedStep (schedRun initSched events)
            (SchedEvent.cycleFinish failed)).1.isSyncing = false) := by
  intro events
  have hinv := schedRun_inv events initSched rfl
  refine ⟨hinv, ?_, ?_⟩
  · intro hf
    have hs : (schedRun initSched events).isSyncing = true := hinv.trans hf
    simp [schedStep, hs]
  · intro failed
    cases hf : (schedRun initSched events).inFlight with
    | true => simp [schedStep, hf]
    | false => simp [schedStep, hf, hinv, hf]

/-- Witness for C3: after one timer fire from the initial state a cycle is in
flight, and a second timer fire is a no-op that starts no cycle. -/
theorem syncGuard_skip_and_release_witness :
    (schedRun initSched [SchedEvent.timerFire]).inFlight = true ∧
    schedStep (schedRun initSched [SchedEvent.timerFire]) SchedEvent.timerFire
      = ((schedRun initSched [SchedEvent.timerFire]), false) :=
  ⟨by decide,
   (syncGuard_skip_and_release [SchedEvent.timerFire]).2.1 (by decide)⟩

/-- C8: in a cycle that starts with no cached token and whose token
acquisition fails (network error, non-2xx, or a body carrying no token), the
token is left cleared, no metadata or telemetry fetch is performed, and the
cycle returns normally (no error propagates), whatever the endpoints or the
database would have done. -/
theorem tokenFailure_skips_cycle {α : Type} :
    ∀ (metaServer telServer : ℕ → Except ReqError (List α)) (dbOk : Bool)
      (fuel : ℕ),
      syncFleetFromTOR none ⟨none, metaServer, telServer, dbOk⟩ fuel
        = some ⟨none, [], [], false, false⟩ := by
  intro m t d fuel
  rfl

/-- Counterexample to C4: a cycle that starts with cached token "T" and whose
paginated calls all fail with an authentication-class error still ends with
the token equal to "T" — the error is swallowed inside `fetchAllPages` and
nothing clears the cached token. -/
theorem token_kept_on_auth_failure_cex :
    syncFleetFromTOR (some "T")
        (⟨some "U", fun _ => .error (.http true), fun _ => .error (.http true),
          true⟩ : CycleEnv ℕ) 1
      = some ⟨some "T", [], [], true, true⟩ ∧
    (some "T" : Option String) ≠ none := by
  exact ⟨rfl, by decide⟩

/-- C4 (amended): a downstream request failure — authentication-class or not —
is caught inside `fetchAllPages` and never clears the cached token: at the end
of any completed cycle the token is exactly the cached one when one existed,
and otherwise the acquisition outcome; it is left cleared only when the
acquisition itself failed. -/
theorem cycle_token_invariant {α : Type} :
    ∀ (tok : Option String) (env : CycleEnv α) (fuel : ℕ) (r : CycleResult α),
      syncFleetFromTOR tok env fuel = some r →
      r.authToken = (match tok with | some t => some t | none => env.login) := by
  intro tok env fuel r h
  cases tok with
  | none =>
    cases hl : env.login with
    | none =>
      simp only [syncFleetFromTOR, getTorToken, hl] at h
      cases h
      rfl
    | some t =>
      simp only [syncFleetFromTOR, getTorToken, hl] at h
      cases hm : fetchAllPages env.metaServer fuel with
      | none => simp [hm] at h
      | some mp =>
        cases ht : fetchAllPages env.telServer fuel with
        | none => simp [hm, ht] at h
        | some tp =>
          simp only [hm, ht] at h
          by_cases hd : env.dbOk <;> simp [hd] at h <;> rw [← h]
  | some t =>
    simp only [syncFleetFromTOR] at h
    cases hm : fetchAllPages env.metaServer fuel with
    | none => simp [hm] at h
    | some mp =>
      cases ht : fetchAllPages env.telServer fuel with
      | none => simp [hm, ht] at h
      | some tp =>
        simp only [hm, ht] at h
        by_cases hd : env.dbOk <;> simp [hd] at h <;> rw [← h]

/-- Invariant of the fetch loop against an error-free paginated endpoint: from
page `pageNo` onward it accumulates exactly the remaining records `rem` and
issues `rem.length / 1000 + 1` further requests. -/
theorem fetchLoop_paged {α : Type} (records : List α) :
    ∀ (fuel pageNo : ℕ) (all : List α) (reqs : ℕ) (rem : List α),
      rem = records.drop ((pageNo - 1) * 1000) →
      1 ≤ pageNo →
      rem.length / 1000 + 1 ≤ fuel →
      fetchLoop (pagedServer records) fuel pageNo all reqs
        = some (all ++ rem, reqs + (rem.length / 1000 + 1)) := by
  intro fuel
  induction fuel with
  | zero => intro pageNo all reqs rem hrem hp hf; omega
  | succ fuel ih =>
    intro pageNo all reqs rem hrem hp hf
    have hpage : pageOf records pageNo = rem.take 1000 := by
      rw [pageOf, ← hrem]
    simp only [fetchLoop, pagedServer, hpage]
    rcases Nat.lt_or_ge rem.length 1000 with hlt | hge
    · rw [List.take_of_length_le (Nat.le_of_lt hlt)]
      by_cases h0 : rem.length = 0
      · have hnil : rem = [] := List.length_eq_zero.mp h0
        subst hnil
        simp
      · rw [if_neg h0, if_pos hlt]
        have hdiv : rem.length / 1000 = 0 := Nat.div_eq_of_lt hlt
        simp [hdiv]
    · have hlen : (rem.take 1000).length = 1000 := by
        rw [List.length_take]; omega
      rw [hlen, if_neg (by omega), if_neg (by omega)]
      have hrem2 : rem.drop 1000 = records.drop ((pageNo + 1 - 1) * 1000) := by
        have hidx : (pageNo - 1) * 1000 + 1000 = (pageNo + 1 - 1) * 1000 := by
          omega
        rw [hrem, List.drop_drop, hidx]
      rw [ih (pageNo + 1) (all ++ rem.take 1000) (reqs + 1) (rem.drop 1000)
        hrem2 (by omega) (by rw [List.length_drop]; omega)]
      simp only [Option.some.injEq, Prod.mk.injEq]
      constructor
      · rw [List.append_assoc, List.take_append_drop]
      · rw [List.length_drop]; omega

/-- Counterexample to C2: with N = 0 total records the loop still issues one
request (the first page must come back empty before the loop can exit), while
ceil(0/1000) = 0. -/
theorem fetchAllPages_ceil_cex :
    fetchAllPages (pagedServer ([] : List ℕ)) 1 = some ([], 1) ∧
    ¬ fetchAllPages (pagedServer ([] : List ℕ)) 1
        = some ([], (([] : List ℕ).length + 1000 - 1) / 1000) := by
  refine ⟨rfl, ?_⟩
  decide

/-- C2 (amended): against an endpoint serving N records in pages of at most
1000, `fetchAllPages` returns all N records and issues exactly
⌊N/1000⌋ + 1 requests — one request per full page plus the final request that
observes either a short page or an empty page; this equals ceil(N/1000)
exactly when 1000 does not divide N. -/
theorem fetchAllPages_pagination {α : Type} (records : List α) (fuel : ℕ)
    (hfuel : records.length / 1000 + 1 ≤ fuel) :
    fetchAllPages (pagedServer records) fuel
      = some (records, records.length / 1000 + 1) ∧
    (records.length % 1000 ≠ 0 →
      records.length / 1000 + 1 = (records.length + 1000 - 1) / 1000) := by
  constructor
  · have h := fetchLoop_paged records fuel 1 [] 0 records (by simp) le_rfl hfuel
    simpa [fetchAllPages] using h
  · intro h
    omega

/-- Witness for C2 (amended): one record is fetched with a single request. -/
theorem fetchAllPages_pagination_witness :
    fetchAllPages (pagedServer [(5 : ℕ)]) 1 = some ([5], 1) :=
  (fetchAllPages_pagination [(5 : ℕ)] 1 (by decide)).1

/-- Invariant of the fetch loop against an endpoint whose page `k` fails:
from page `pageNo ≤ k` onward it accumulates the `k - pageNo` full pages that
precede the failure and issues `k - pageNo + 1` further requests. -/
theorem fetchLoop_errorAt {α : Type} (records : List α) (k : ℕ) (e : ReqError)
    (hk : (k - 1) * 1000 ≤ records.length) :
    ∀ (fuel pageNo : ℕ) (all : List α) (reqs : ℕ),
      1 ≤ pageNo → pageNo ≤ k → k - pageNo + 1 ≤ fuel →
      fetchLoop (errorAtServer records k e) fuel pageNo all reqs
        = some (all ++ (records.drop ((pageNo - 1) * 1000)).take ((k - pageNo) * 1000),
                reqs + (k - pageNo) + 1) := by
  intro fuel
  induction fuel with
  | zero => intro pageNo all reqs hp hpk hf; omega
  | succ fuel ih =>
    intro pageNo all reqs hp hpk hf
    by_cases hlt : pageNo < k
    · have hserver : errorAtServer records k e pageNo
          = .ok (pageOf records pageNo) := by
        simp [errorAtServer, hlt]
      have hlen : (pageOf records pageNo).length = 1000 := by
        rw [pageOf, List.length_take, List.length_drop]; omega
      simp only [fetchLoop, hserver]
      rw [hlen, if_neg (by omega), if_neg (by omega)]
      rw [ih (pageNo + 1) (all ++ pageOf records pageNo) (reqs + 1)
        (by omega) (by omega) (by omega)]
      simp only [Option.some.injEq, Prod.mk.injEq]
      constructor
      · have hidx : (pageNo + 1 - 1) * 1000 = (pageNo - 1) * 1000 + 1000 := by
          omega
        have hsplit : (k - pageNo) * 1000 = 1000 + (k - (pageNo + 1)) * 1000 := by
          omega
        rw [List.append_assoc, pageOf, hidx, ← List.drop_drop, hsplit,
          List.take_add]
      · omega
    · have hpk' : pageNo = k := by omega
      have hserver : errorAtServer records k e pageNo = .error e := by
        simp [errorAtServer, hlt]
      simp only [fetchLoop, hserver]
      subst hpk'
      simp

/-- C5: when page `k` of an endpoint fails with a request-level error (timeout
included), `fetchAllPages` stops paginating and returns exactly the records
accumulated from the `k - 1` pages that succeeded before the error, in `k`
requests; the error is not propagated — the call still returns normally with
the partial result. -/
theorem fetchAllPages_error_partial {α : Type} (records : List α) (k : ℕ)
    (e : ReqError) (fuel : ℕ) (hk1 : 1 ≤ k)
    (hk : (k - 1) * 1000 ≤ records.length) (hfuel : k ≤ fuel) :
    fetchAllPages (errorAtServer records k e) fuel
      = some (records.take ((k - 1) * 1000), k) := by
  have h := fetchLoop_errorAt records k e hk fuel 1 [] 0 le_rfl hk1 (by omega)
  rw [fetchAllPages, h]
  simp only [Option.some.injEq, Prod.mk.injEq]
  refine ⟨by simp, by omega⟩

/-- Witness for C5: an endpoint failing on its first page yields the empty
partial result after exactly one request, with no exception. -/
theorem fetchAllPages_error_partial_witness :
    fetchAllPages (errorAtServer ([] : List ℕ) 1 ReqError.timeout) 1
      = some ([], 1) :=
  fetchAllPages_error_partial [] 1 ReqError.timeout 1 (by decide) (by decide)
    (by decide)

/-- Witness for C4 (amended): a concrete completed cycle with cached token "T"
and empty endpoints ends with that same token. -/
theorem cycle_token_invariant_witness :
    (⟨some "T", [], [], true, true⟩ : CycleResult ℕ).authToken = some "T" :=
  cycle_token_invariant (some "T")
    (⟨none, pagedServer ([] : List ℕ), pagedServer [], true⟩ : CycleEnv ℕ) 1
    ⟨some "T", [], [], true, true⟩ rfl

/-- Finding the key in the replaced association list after an in-place update
yields the updated binding. -/
theorem find?_map_replace (s : VStore) (k : String) (v : Vehicle)
    (h : s.any (fun p => p.1 == k) = true) :
    (s.map (fun p => if p.1 == k then (k, v) else p)).find? (fun p => p.1 == k)
      = some (k, v) := by
  induction s with
  | nil => simp at h
  | cons p s ih =>
    simp only [List.any_cons, Bool.or_eq_true] at h
    by_cases hp : (p.1 == k) = true
    · have hp' : p.1 = k := by simpa using hp
      simp [List.find?_cons, hp']
    · have hs : s.any (fun p => p.1 == k) = true := by
        rcases h with h | h
        · exact absurd h hp
        · exact h
      simp only [List.map_cons, if_neg hp]
      rw [List.find?_cons_of_neg _ (by simpa using hp)]
      exact ih hs

/-- Looking up the written key after a store write yields the written
vehicle. -/
theorem lookupStore_upsert (s : VStore) (k : String) (v : Vehicle) :
    lookupStore (upsertStore s k v) k = some v := by
  rw [upsertStore]
  by_cases h : s.any (fun p => p.1 == k) = true
  · rw [if_pos h, lookupStore, find?_map_replace s k v h]
    rfl
  · rw [if_neg h, lookupStore, List.find?_append]
    have hnone : s.find? (fun p => p.1 == k) = none := by
      rw [List.find?_eq_none]
      intro p hp hcontra
      exact h (List.any_eq_true.mpr ⟨p, hp, hcontra⟩)
    rw [hnone]
    simp [List.find?_cons]

/-- Every binding of the written store is the new binding or an old one. -/
theorem mem_upsertStore (s : VStore) (k : String) (v : Vehicle) :
    ∀ p ∈ upsertStore s k v, p = (k, v) ∨ p ∈ s := by
  intro p hp
  rw [upsertStore] at hp
  by_cases h : s.any (fun q => q.1 == k) = true
  · rw [if_pos h] at hp
    rcases List.mem_map.mp hp with ⟨q, hq, hfq⟩
    by_cases hqk : (q.1 == k) = true
    · left; rw [← hfq, if_pos hqk]
    · right; rw [← hfq, if_neg hqk]; exact hq
  · rw [if_neg h] at hp
    rcases List.mem_append.mp hp with h1 | h1
    · right; exact h1
    · left; simpa using h1

/-- A successful store lookup returns the value of some binding of the
store. -/
theorem lookupStore_mem (s : VStore) (i : String) (v : Vehicle)
    (h : lookupStore s i = some v) : ∃ p ∈ s, p.2 = v := by
  rw [lookupStore] at h
  rcases Option.map_eq_some'.mp h with ⟨p, hfind, hv⟩
  exact ⟨p, List.mem_of_find?_eq_some hfind, hv⟩

/-- A history whose entries all have keys different from the record's key
contains no match for the dedup scan. -/
theorem any_entryKey_false (H : List HistoryEntry) (key : Option String)
    (h : ∀ x ∈ H, entryKeyOf x.rawTor ≠ key) :
    (H.any fun x => entryKeyOf x.rawTor == key) = false := by
  cases hany : H.any (fun x => entryKeyOf x.rawTor == key) with
  | false => rfl
  | true =>
    rcases List.any_eq_true.mp hany with ⟨x, hx, hbx⟩
    exact absurd (by simpa using hbx) (h x hx)

/-- A record whose dedup key is falsy leaves the history untouched. -/
theorem newHistoryOf_falsy (H : List HistoryEntry) (n : PushNode)
    (h : truthyS (entryKeyOf n.rawTor) = false) : newHistoryOf H n = H := by
  unfold newHistoryOf
  simp [h]

/-- A record whose dedup key already occurs in the history leaves the history
untouched. -/
theorem newHistoryOf_dup (H : List HistoryEntry) (n : PushNode)
    (hdup : (H.any fun x => entryKeyOf x.rawTor == entryKeyOf n.rawTor) = true) :
    newHistoryOf H n = H := by
  unfold newHistoryOf
  simp [hdup]

/-- A record with a truthy, unseen dedup key prepends its entry, popping the
oldest entry if the cap is exceeded. -/
theorem newHistoryOf_fresh (H : List HistoryEntry) (n : PushNode)
    (htr : truthyS (entryKeyOf n.rawTor) = true)
    (hfr : (H.any fun x => entryKeyOf x.rawTor == entryKeyOf n.rawTor) = false) :
    newHistoryOf H n
      = if (entryOfNode n :: H).length > 5000 then (entryOfNode n :: H).dropLast
        else entryOfNode n :: H := by
  unfold newHistoryOf
  simp [htr, hfr]

/-- The history update never grows a history beyond the 5000-entry cap. -/
theorem newHistoryOf_length (H : List HistoryEntry) (n : PushNode)
    (hH : H.length ≤ 5000) : (newHistoryOf H n).length ≤ 5000 := by
  unfold newHistoryOf
  dsimp only
  split
  · split
    · rename_i hgt
      rw [List.length_dropLast]
      simp only [List.length_cons]
      omega
    · rename_i hng
      simp only [List.length_cons] at hng ⊢
      omega
  · exact hH

/-- On a history within the cap, the fresh-key update is exactly: prepend,
then truncate to the first 5000 entries. -/
theorem newHistoryOf_take (H : List HistoryEntry) (n : PushNode)
    (hH : H.length ≤ 5000) (htr : truthyS (entryKeyOf n.rawTor) = true)
    (hfr : (H.any fun x => entryKeyOf x.rawTor == entryKeyOf n.rawTor) = false) :
    newHistoryOf H n = (entryOfNode n :: H).take 5000 := by
  rw [newHistoryOf_fresh H n htr hfr]
  by_cases hlen : (entryOfNode n :: H).length > 5000
  · rw [if_pos hlen, List.dropLast_eq_take]
    have hfix : (entryOfNode n :: H).length - 1 = 5000 := by
      simp only [List.length_cons] at hlen ⊢
      omega
    rw [hfix]
  · rw [if_neg hlen, List.take_of_length_le]
    simp only [List.length_cons] at hlen ⊢
    omega

/-- After a fresh-key update of a history free of the key, exactly one entry
carries the key. -/
theorem countP_newHistoryOf (H : List HistoryEntry) (n : PushNode) (k : String)
    (hk : entryKeyOf n.rawTor = some k) (hkne : k ≠ "")
    (hfresh : ∀ h ∈ H, entryKeyOf h.rawTor ≠ some k) :
    (newHistoryOf H n).countP (fun h => entryKeyOf h.rawTor == some k) = 1 := by
  have htr : truthyS (entryKeyOf n.rawTor) = true := by
    rw [hk]; simp [truthyS, hkne]
  have hfr : (H.any fun x => entryKeyOf x.rawTor == entryKeyOf n.rawTor) = false := by
    rw [hk]; exact any_entryKey_false H (some k) hfresh
  have hpred : (entryKeyOf (entryOfNode n).rawTor == some k) = true := by
    simp [entryOfNode, hk]
  have hzero : H.countP (fun h => entryKeyOf h.rawTor == some k) = 0 := by
    rw [List.countP_eq_zero]
    intro a ha
    simpa using hfresh a ha
  rw [newHistoryOf_fresh H n htr hfr]
  by_cases hlen : (entryOfNode n :: H).length > 5000
  · rw [if_pos hlen]
    cases H with
    | nil => simp at hlen
    | cons a H' =>
      rw [List.dropLast_cons₂, List.countP_cons, hpred]
      have hz : (a :: H').dropLast.countP
          (fun h => entryKeyOf h.rawTor == some k) = 0 := by
        rw [List.countP_eq_zero]
        intro x hx
        have hxm : x ∈ a :: H' := (List.dropLast_sublist (a :: H')).subset hx
        simpa using hfresh x hxm
      rw [hz]
      simp
  · rw [if_neg hlen, List.countP_cons, hpred, hzero]
    simp

/-- Unfolding of one push-record application at a truthy identifier. -/
theorem applyNode_eq (s : VStore) (n : PushNode) (i : String)
    (hid : n.id = some i) (hi : i ≠ "") :
    applyNode s n
      = upsertStore s i (mergeVehicle ((lookupStore s i).getD emptyVehicle) n
          (newHistoryOf ((lookupStore s i).getD emptyVehicle).history n)) := by
  simp only [applyNode, hid]
  rw [if_neg hi]

/-- C6: pushing two records with the same (truthy) timestamp key for the same
vehicle, onto a store whose existing history for that vehicle does not contain
the key, yields exactly one history entry carrying that key — the second
record is deduplicated against the entry added by the first. -/
theorem history_dedup (s : VStore) (n₁ n₂ : PushNode) (i k : String)
    (h1 : n₁.id = some i) (h2 : n₂.id = some i) (hi : i ≠ "")
    (hk1 : entryKeyOf n₁.rawTor = some k) (hk2 : entryKeyOf n₂.rawTor = some k)
    (hk : k ≠ "")
    (hfresh : ∀ h ∈ ((lookupStore s i).getD emptyVehicle).history,
      entryKeyOf h.rawTor ≠ some k) :
    ((lookupStore (telemetryBulk s [n₁, n₂]) i).getD emptyVehicle).history.countP
      (fun h => entryKeyOf h.rawTor == some k) = 1 := by
  have hcount1 := countP_newHistoryOf
    ((lookupStore s i).getD emptyVehicle).history n₁ k hk1 hk hfresh
  have hdup2 : ((newHistoryOf ((lookupStore s i).getD emptyVehicle).history n₁).any
      fun x => entryKeyOf x.rawTor == entryKeyOf n₂.rawTor) = true := by
    rw [hk2]
    apply List.any_eq_true.mpr
    exact List.countP_pos_iff.mp (by rw [hcount1]; omega)
  rw [show telemetryBulk s [n₁, n₂] = applyNode (applyNode s n₁) n₂ from rfl,
    applyNode_eq s n₁ i h1 hi, applyNode_eq _ n₂ i h2 hi, lookupStore_upsert,
    lookupStore_upsert]
  simp only [Option.getD_some, mergeVehicle]
  rw [newHistoryOf_dup _ n₂ hdup2]
  exact hcount1

/-- One push-record application preserves the store-wide 5000-entry history
cap. -/
theorem applyNode_cap (s : VStore) (n : PushNode)
    (hs : ∀ p ∈ s, p.2.history.length ≤ 5000) :
    ∀ p ∈ applyNode s n, p.2.history.length ≤ 5000 := by
  intro p hp
  cases hid : n.id with
  | none =>
    simp only [applyNode, hid] at hp
    exact hs p hp
  | some i =>
    by_cases hie : i = ""
    · simp only [applyNode, hid, if_pos hie] at hp
      exact hs p hp
    · simp only [applyNode, hid, if_neg hie] at hp
      rcases mem_upsertStore _ _ _ p hp with h | h
      · rw [h]
        show (newHistoryOf ((lookupStore s i).getD emptyVehicle).history n).length
          ≤ 5000
        apply newHistoryOf_length
        cases hl : lookupStore s i with
        | none => simp [hl, emptyVehicle]
        | some v =>
          rcases lookupStore_mem s i v hl with ⟨q, hq, hq2⟩
          rw [Option.getD_some, ← hq2]
          exact hs q hq
      · exact hs p h

/-- Truncating the second operand of an append at the overall truncation bound
changes nothing. -/
theorem take_append_take {β : Type} (l m : List β) (j : ℕ) :
    (l ++ m.take j).take j = (l ++ m).take j := by
  rw [List.take_append_eq_append_take, List.take_append_eq_append_take,
    List.take_take]
  have hmin : (j - l.length) ⊓ j = j - l.length :=
    inf_eq_left.mpr (Nat.sub_le _ _)
  rw [hmin]

/-- Structure of a whole batch push for one vehicle: under distinct truthy
keys, fresh with respect to the existing history, the final history is the
pushed entries newest-first in front of the old history, truncated to 5000. -/
theorem telemetryBulk_history (i : String) (hi : i ≠ "") :
    ∀ (batch : List PushNode) (s : VStore),
      (∀ n ∈ batch, n.id = some i) →
      (∀ n ∈ batch, truthyS (entryKeyOf n.rawTor) = true) →
      batch.Pairwise (fun a b => entryKeyOf a.rawTor ≠ entryKeyOf b.rawTor) →
      (∀ n ∈ batch, ∀ h ∈ ((lookupStore s i).getD emptyVehicle).history,
        entryKeyOf h.rawTor ≠ entryKeyOf n.rawTor) →
      ((lookupStore s i).getD emptyVehicle).history.length ≤ 5000 →
      ((lookupStore (telemetryBulk s batch) i).getD emptyVehicle).history
        = ((batch.reverse.map entryOfNode)
            ++ ((lookupStore s i).getD emptyVehicle).history).take 5000 := by
  intro batch
  induction batch with
  | nil =>
    intro s _ _ _ _ hlen
    simp only [telemetryBulk, List.foldl_nil, List.reverse_nil, List.map_nil,
      List.nil_append]
    exact (List.take_of_length_le hlen).symm
  | cons n rest ih =>
    intro s hids htr hpw hfresh hlen
    have hidn : n.id = some i := hids n (List.mem_cons_self n rest)
    have htrn : truthyS (entryKeyOf n.rawTor) = true :=
      htr n (List.mem_cons_self n rest)
    have hfrn : (((lookupStore s i).getD emptyVehicle).history.any
        fun x => entryKeyOf x.rawTor == entryKeyOf n.rawTor) = false :=
      any_entryKey_false _ _ (hfresh n (List.mem_cons_self n rest))
    have hnew : newHistoryOf ((lookupStore s i).getD emptyVehicle).history n
        = (entryOfNode n :: ((lookupStore s i).getD emptyVehicle).history).take 5000 :=
      newHistoryOf_take _ n hlen htrn hfrn
    have hl1 : ((lookupStore (applyNode s n) i).getD emptyVehicle).history
        = (entryOfNode n :: ((lookupStore s i).getD emptyVehicle).history).take 5000 := by
      rw [applyNode_eq s n i hidn hi, lookupStore_upsert, Option.getD_some]
      exact hnew
    have hstep : telemetryBulk s (n :: rest) = telemetryBulk (applyNode s n) rest :=
      rfl
    rw [hstep]
    rw [ih (applyNode s n) (fun m hm => hids m (List.mem_cons_of_mem n hm))
      (fun m hm => htr m (List.mem_cons_of_mem n hm))
      ((List.pairwise_cons.mp hpw).2) ?fresh ?len]
    case fresh =>
      intro m hm h hh
      rw [hl1] at hh
      have hh' : h ∈ entryOfNode n :: ((lookupStore s i).getD emptyVehicle).history :=
        List.take_subset _ _ hh
      rcases List.mem_cons.mp hh' with he | he
      · rw [he]
        exact (List.pairwise_cons.mp hpw).1 m hm
      · exact hfresh m (List.mem_cons_of_mem n hm) h he
    case len =>
      rw [hl1, List.length_take]
      exact min_le_left _ _
    rw [hl1, take_append_take, List.reverse_cons, List.map_append,
      List.append_assoc]
    rfl

/-- C7: (i) a whole pushed batch keeps every vehicle's history within the
5000-entry cap whenever it was within the cap before; (ii) for a batch of
records for one vehicle with distinct truthy timestamp keys fresh to the
existing history, the resulting history is exactly the new entries
newest-first (the last pushed record in front) followed by the old entries,
truncated to the first 5000 — so on overflow the evicted entries are the
oldest; (iii) in particular, pushing 5001 such records for a previously
unknown vehicle retains exactly 5000 entries, the first-pushed (oldest) record
being the one evicted by the truncation. -/
theorem history_cap (s : VStore) (batch : List PushNode) (i : String) :
    ((∀ p ∈ s, p.2.history.length ≤ 5000) →
      ∀ p ∈ telemetryBulk s batch, p.2.history.length ≤ 5000)
    ∧ (i ≠ "" → (∀ n ∈ batch, n.id = some i) →
      (∀ n ∈ batch, truthyS (entryKeyOf n.rawTor) = true) →
      batch.Pairwise (fun a b => entryKeyOf a.rawTor ≠ entryKeyOf b.rawTor) →
      (∀ n ∈ batch, ∀ h ∈ ((lookupStore s i).getD emptyVehicle).history,
        entryKeyOf h.rawTor ≠ entryKeyOf n.rawTor) →
      ((lookupStore s i).getD emptyVehicle).history.length ≤ 5000 →
      ((lookupStore (telemetryBulk s batch) i).getD emptyVehicle).history
        = ((batch.reverse.map entryOfNode)
            ++ ((lookupStore s i).getD emptyVehicle).history).take 5000)
    ∧ (i ≠ "" → (∀ n ∈ batch, n.id = some i) →
      (∀ n ∈ batch, truthyS (entryKeyOf n.rawTor) = true) →
      batch.Pairwise (fun a b => entryKeyOf a.rawTor ≠ entryKeyOf b.rawTor) →
      lookupStore s i = none → batch.length = 5001 →
      ((lookupStore (telemetryBulk s batch) i).getD emptyVehicle).history
          = (batch.reverse.map entryOfNode).take 5000
        ∧ ((lookupStore (telemetryBulk s batch) i).getD
            emptyVehicle).history.length = 5000) := by
  refine ⟨?_, ?_, ?_⟩
  · intro hs
    induction batch generalizing s with
    | nil => exact hs
    | cons n rest ihb =>
      intro p hp
      exact ihb (applyNode s n) (applyNode_cap s n hs) p hp
  · intro hi hids htr hpw hfresh hlen
    exact telemetryBulk_history i hi batch s hids htr hpw hfresh hlen
  · intro hi hids htr hpw hnone hcount
    have hemp : ((lookupStore s i).getD emptyVehicle).history = [] := by
      rw [hnone]; rfl
    have h := telemetryBulk_history i hi batch s hids htr hpw
      (by rw [hemp]; intro n _ h hh; exact absurd hh (List.not_mem_nil h))
      (by rw [hemp]; simp)
    rw [hemp, List.append_nil] at h
    refine ⟨h, ?_⟩
    rw [h, List.length_take, List.length_map, List.length_reverse, hcount]
    rfl

/-- Witness for C7: one record pushed for the fresh vehicle "v" yields the
single-entry history, within the cap. -/
theorem history_cap_witness :
    ((lookupStore (telemetryBulk []
        [⟨some "v", some ⟨some "t", none⟩, none, none⟩]) "v").getD
      emptyVehicle).history
      = [⟨some "t", some ⟨some "t", none⟩, none⟩] := by
  have h := (history_cap [] [⟨some "v", some ⟨some "t", none⟩, none, none⟩]
      "v").2.1 (by decide) (by decide) (by decide) (by simp) (by decide) (by decide)
  exact h.trans rfl

/-- C10: a push record with a truthy identifier but neither an `ENTRYDATE` nor
a `DeviceDate` timestamp is still shallow-merged into the vehicle's current
state, while the vehicle's history list is left entirely unchanged — no
history entry is appended. -/
theorem timestampless_frame (s : VStore) (n : PushNode) (i : String)
    (hid : n.id = some i) (hi : i ≠ "")
    (he : n.rawTor.bind (fun x => x.ENTRYDATE) = none)
    (hd : n.rawTor.bind (fun x => x.DeviceDate) = none) :
    applyNode s n
      = upsertStore s i (mergeVehicle ((lookupStore s i).getD emptyVehicle) n
          ((lookupStore s i).getD emptyVehicle).history) ∧
    ((lookupStore (applyNode s n) i).getD emptyVehicle).history
      = ((lookupStore s i).getD emptyVehicle).history := by
  have hkey : entryKeyOf n.rawTor = none := by
    rw [entryKeyOf, he, hd]; rfl
  have hskip : newHistoryOf ((lookupStore s i).getD emptyVehicle).history n
      = ((lookupStore s i).getD emptyVehicle).history :=
    newHistoryOf_falsy _ n (by rw [hkey]; rfl)
  have ha := applyNode_eq s n i hid hi
  constructor
  · rw [ha, hskip]
  · rw [ha, hskip, lookupStore_upsert]
    rfl

/-- Witness for C10: a timestamp-less record for the fresh vehicle "v" leaves
its history empty. -/
theorem timestampless_frame_witness :
    ((lookupStore (applyNode [] ⟨some "v", none, some "m", some "On"⟩)
        "v").getD emptyVehicle).history = [] :=
  (timestampless_frame [] ⟨some "v", none, some "m", some "On"⟩ "v" rfl
    (by decide) rfl rfl).2

/-- Witness for C6: pushing the same timestamped record twice for vehicle "v"
into an empty store leaves exactly one entry with key "t". -/
theorem history_dedup_witness :
    ((lookupStore (telemetryBulk []
        [⟨some "v", some ⟨some "t", none⟩, none, none⟩,
         ⟨some "v", some ⟨some "t", none⟩, none, none⟩]) "v").getD
      emptyVehicle).history.countP
      (fun h => entryKeyOf h.rawTor == some "t") = 1 :=
  history_dedup [] ⟨some "v", some ⟨some "t", none⟩, none, none⟩
    ⟨some "v", some ⟨some "t", none⟩, none, none⟩ "v" "t" rfl rfl (by decide)
    rfl rfl (by decide) (by simp [lookupStore, emptyVehicle])

/-- A record with a falsy `vehicleId` is skipped: the table is unchanged. -/
theorem ingestRec_skip (now : ℕ) (tbl : VTable) (v : BulkRec)
    (h : truthyS v.vehicleId = false) : ingestRec now tbl v = tbl := by
  cases hv : v.vehicleId with
  | none => simp [ingestRec, hv]
  | some j =>
    have hj : j = "" := by
      rw [hv] at h
      simpa [truthyS] using h
    simp [ingestRec, hv, hj]

/-- The ingest loop over a batch equals the loop over the records with a
truthy `vehicleId` only. -/
theorem foldl_ingest_filter (now : ℕ) :
    ∀ (l : List BulkRec) (tbl : VTable),
      l.foldl (ingestRec now) tbl
        = (l.filter fun v => truthyS v.vehicleId).foldl (ingestRec now) tbl := by
  intro l
  induction l with
  | nil => intro tbl; rfl
  | cons v rest ih =>
    intro tbl
    cases htr : truthyS v.vehicleId with
    | true =>
      have hfil : (v :: rest).filter (fun v => truthyS v.vehicleId)
          = v :: rest.filter (fun v => truthyS v.vehicleId) := by
        simp [List.filter_cons, htr]
      rw [hfil, List.foldl_cons, List.foldl_cons]
      exact ih (ingestRec now tbl v)
    | false =>
      have hfil : (v :: rest).filter (fun v => truthyS v.vehicleId)
          = rest.filter (fun v => truthyS v.vehicleId) := by
        simp [List.filter_cons, htr]
      rw [hfil, List.foldl_cons, ingestRec_skip now tbl v htr]
      exact ih tbl

/-- The upserted key is present in the table after a row upsert. -/
theorem any_upsertRow_self (tbl : VTable) (k : String) (r : VehicleRow) :
    ((upsertRow tbl k r).any fun p => p.1 == k) = true := by
  rw [upsertRow]
  by_cases h : (tbl.any fun p => p.1 == k) = true
  · rw [if_pos h]
    rcases List.any_eq_true.mp h with ⟨p, hp, hpk⟩
    apply List.any_eq_true.mpr
    refine ⟨(k, r), List.mem_map.mpr ⟨p, hp, ?_⟩, by simp⟩
    rw [if_pos hpk]
  · rw [if_neg h, List.any_append]
    simp

/-- A key present in the table stays present after any row upsert. -/
theorem any_upsertRow_mono (tbl : VTable) (k : String) (r : VehicleRow)
    (i : String) (h : (tbl.any fun p => p.1 == i) = true) :
    ((upsertRow tbl k r).any fun p => p.1 == i) = true := by
  rw [upsertRow]
  by_cases hk : (tbl.any fun p => p.1 == k) = true
  · rw [if_pos hk]
    rcases List.any_eq_true.mp h with ⟨p, hp, hpi⟩
    apply List.any_eq_true.mpr
    by_cases hpk : (p.1 == k) = true
    · refine ⟨(k, r), List.mem_map.mpr ⟨p, hp, by rw [if_pos hpk]⟩, ?_⟩
      have h1 : p.1 = i := by simpa using hpi
      have h2 : p.1 = k := by simpa using hpk
      simp [← h1, h2]
    · exact ⟨p, List.mem_map.mpr ⟨p, hp, by rw [if_neg hpk]⟩, hpi⟩
  · rw [if_neg hk, List.any_append, h]
    rfl

/-- A key present in the table stays present after ingesting any record. -/
theorem any_ingestRec_mono (now : ℕ) (tbl : VTable) (v : BulkRec) (i : String)
    (h : (tbl.any fun p => p.1 == i) = true) :
    ((ingestRec now tbl v).any fun p => p.1 == i) = true := by
  cases hv : v.vehicleId with
  | none => simpa [ingestRec, hv] using h
  | some j =>
    by_cases hj : j = ""
    · simpa [ingestRec, hv, hj] using h
    · simp only [ingestRec, hv, if_neg hj]
      exact any_upsertRow_mono tbl j _ i h

/-- A key present in the table stays present over the whole ingest loop. -/
theorem any_foldl_ingest_mono (now : ℕ) :
    ∀ (l : List BulkRec) (tbl : VTable) (i : String),
      (tbl.any fun p => p.1 == i) = true →
      ((l.foldl (ingestRec now) tbl).any fun p => p.1 == i) = true := by
  intro l
  induction l with
  | nil => intro tbl i h; exact h
  | cons v rest ih =>
    intro tbl i h
    exact ih (ingestRec now tbl v) i (any_ingestRec_mono now tbl v i h)

/-- Every record of the batch with a truthy `vehicleId` ends up keyed in the
table produced by the ingest loop. -/
theorem any_foldl_ingest_of_mem (now : ℕ) :
    ∀ (l : List BulkRec) (tbl : VTable) (v : BulkRec) (i : String),
      v ∈ l → v.vehicleId = some i → i ≠ "" →
      ((l.foldl (ingestRec now) tbl).any fun p => p.1 == i) = true := by
  intro l
  induction l with
  | nil => intro tbl v i hv; exact absurd hv (List.not_mem_nil v)
  | cons w rest ih =>
    intro tbl v i hv hvi hine
    rcases List.mem_cons.mp hv with he | he
    · rw [List.foldl_cons]
      apply any_foldl_ingest_mono now rest
      rw [← he] at *
      simp only [ingestRec, hvi, if_neg hine]
      exact any_upsertRow_self tbl i _
    · exact ih (ingestRec now tbl w) v i he hvi hine

/-- C9: the MySQL-backed bulk endpoint rejects a non-array body with 400
before touching any vehicle state; on an array body it skips exactly the
records lacking a truthy `vehicleId` (the resulting table and response are
those of the batch restricted to records with an identifier), every
non-skipped record ends up keyed in the table, and the success response
reports the total vehicle count of the table after the whole batch is
applied. -/
theorem bulk_ingest_contract (now : ℕ) (tbl : VTable) :
    (telemetryBulkIngest now tbl BulkBody.notArray
        = (tbl, BulkResponse.badRequest)) ∧
    (∀ l : List BulkRec,
      telemetryBulkIngest now tbl (BulkBody.arr l)
        = telemetryBulkIngest now tbl
            (BulkBody.arr (l.filter fun v => truthyS v.vehicleId))) ∧
    (∀ l : List BulkRec,
      (telemetryBulkIngest now tbl (BulkBody.arr l)).2
        = BulkResponse.ok
            ((telemetryBulkIngest now tbl (BulkBody.arr l)).1.length)) ∧
    (∀ (l : List BulkRec) (v : BulkRec) (i : String),
      v ∈ l → v.vehicleId = some i → i ≠ "" →
      (((telemetryBulkIngest now tbl (BulkBody.arr l)).1.any
        fun p => p.1 == i)) = true) := by
  refine ⟨rfl, ?_, ?_, ?_⟩
  · intro l
    simp only [telemetryBulkIngest]
    rw [foldl_ingest_filter now l tbl]
  · intro l
    rfl
  · intro l v i hv hvi hine
    simp only [telemetryBulkIngest]
    exact any_foldl_ingest_of_mem now l tbl v i hv hvi hine

/-- Witness for C9: a one-record batch for vehicle "v" leaves "v" keyed in the
table. -/
theorem bulk_ingest_contract_witness :
    ((telemetryBulkIngest 0 []
        (BulkBody.arr [⟨some "v", none, none, none, none, none⟩])).1.any
      fun p => p.1 == "v") = true :=
  (bulk_ingest_contract 0 []).2.2.2 [⟨some "v", none, none, none, none, none⟩]
    ⟨some "v", none, none, none, none, none⟩ "v" (by decide) rfl (by decide)

end Osme
